import Mathlib

/-!
Verification development for the StudentsFetcher script
(`src/script_from_prompt.py`).

The script is a resumable fetch-and-parse pipeline: it enumerates seat
numbers, skips seats already present in a previously written spreadsheet,
fetches and parses one HTML response per seat with a bounded retry loop,
and rewrites the spreadsheet with the prior records followed by the newly
fetched ones.

The embedding below models Python strings with Lean `String`, but every
string operation the script uses (`strip`, `lower`, `split`, `zfill`,
`int(...)`, substring containment, lexicographic comparison) is defined
charwise on `String.data` so that all definitions evaluate by kernel
reduction.  Spreadsheet cells are modelled by `CellValue` (absent cell,
integer cell, string cell); the spreadsheet itself is a header row of
strings plus a list of rows of cells, which is exactly the interface the
script reads back with openpyxl and writes with xlsxwriter.  Network and
HTML parsing are modelled by an abstract per-attempt outcome: either an
exception (transport or parse failure) or a structurally parsed response
(`Response`), mirroring which Python operations can raise inside the
`try` block of `fetch_one`.
-/

/-- Python whitespace test used by `str.strip` (ASCII whitespace suffices
for the inputs the script manipulates). -/
def isSpaceChar (c : Char) : Bool := c.isWhitespace

/-- Python `str.strip()`: drop whitespace from both ends. -/
def pyStrip (s : String) : String :=
  String.mk (((s.data.dropWhile isSpaceChar).reverse.dropWhile isSpaceChar).reverse)

/-- Python `str.lower()` (ASCII case folding; the script only lowercases
ASCII labels such as column headers and the word "code"). -/
def pyLower (s : String) : String := String.mk (s.data.map Char.toLower)

/-- Lexicographic order on char lists by code point: Python string
comparison, used by `sorted(...)` in the header computation. -/
def lexLe : List Char → List Char → Bool
  | [], _ => true
  | _ :: _, [] => false
  | a :: as, b :: bs =>
    if a.toNat = b.toNat then lexLe as bs else decide (a.toNat < b.toNat)

/-- Python string `<=` on the two strings' code points. -/
def keyLe (a b : String) : Bool := lexLe a.data b.data

/-- Prefix test on char lists. -/
def charsPfx : List Char → List Char → Bool
  | [], _ => true
  | _ :: _, [] => false
  | a :: as, b :: bs => decide (a = b) && charsPfx as bs

/-- Substring test on char lists: some suffix of the haystack starts with
the needle. -/
def charsSub (needle : List Char) : List Char → Bool
  | [] => needle.isEmpty
  | c :: cs => charsPfx needle (c :: cs) || charsSub needle cs

/-- Python `needle in hay` for strings. -/
def strIn (needle hay : String) : Bool := charsSub needle.data hay.data

/-- Value of a list of decimal digit characters. -/
def digitsToNat (cs : List Char) : Nat := cs.foldl (fun a c => 10 * a + (c.toNat - 48)) 0

/-- All characters are decimal digits. -/
def allDigits (cs : List Char) : Bool := cs.all Char.isDigit

/-- Python `int(s)` on a string: strip whitespace, optional sign, decimal
digits; `none` models the `ValueError` raised otherwise.  (Digit-group
underscores, accepted by CPython, do not occur in the script's data and
are not modelled.) -/
def pyIntOfStr (s : String) : Option Int :=
  match (pyStrip s).data with
  | [] => Option.none
  | '+' :: rest =>
    if rest.isEmpty then Option.none
    else if allDigits rest then some (Int.ofNat (digitsToNat rest)) else Option.none
  | '-' :: rest =>
    if rest.isEmpty then Option.none
    else if allDigits rest then some (-(Int.ofNat (digitsToNat rest))) else Option.none
  | c :: rest =>
    if allDigits (c :: rest) then some (Int.ofNat (digitsToNat (c :: rest))) else Option.none

/-- One spreadsheet cell as handed back by openpyxl `values_only` /
handed to xlsxwriter: an absent value (`None`), an integer, or a string. -/
inductive CellValue where
  | none : CellValue
  | int (n : Int) : CellValue
  | str (s : String) : CellValue
deriving DecidableEq

/-- Python `int(cell)`: `None` raises `TypeError`, an int is itself, a
string is parsed. -/
def pyInt : CellValue → Option Int
  | CellValue.none => Option.none
  | CellValue.int n => some n
  | CellValue.str s => pyIntOfStr s

/-- A record: the Python dict mapping field name to value, kept in
insertion order as dict literals and assignments build it. -/
abbrev Record := List (String × CellValue)

/-- Python dict assignment `d[k] = v`: overwrite in place if the key is
present, else append. -/
def dictSet : Record → String → CellValue → Record
  | [], k, v => [(k, v)]
  | p :: t, k, v => if p.fst = k then (k, v) :: t else p :: dictSet t k v

/-- Python `d.get(k, dflt)`. -/
def recGet : Record → String → CellValue → CellValue
  | [], _, dflt => dflt
  | p :: t, k, dflt => if p.fst = k then p.snd else recGet t k dflt

/-- Python `d.keys()` in insertion order. -/
def recKeys (r : Record) : List String := r.map Prod.fst

/-- Pad a char list on the left with zeros to width `w`. -/
def padZeros (w : Nat) (cs : List Char) : List Char := List.replicate (w - cs.length) '0' ++ cs

/-- Python `str.zfill(w)` on the char list: left-pad with zeros to total
width `w`, keeping a leading sign in front of the padding. -/
def zfillChars (w : Nat) : List Char → List Char
  | [] => padZeros w []
  | c :: rest =>
    if c = '-' ∨ c = '+' then c :: padZeros (w - 1) rest
    else padZeros w (c :: rest)

/-- Python `str.zfill(w)`. -/
def pyZfill (w : Nat) (s : String) : String := String.mk (zfillChars w s.data)

/-- `str(s).zfill(6)` for a natural seat number (lines 109 and 118 of the
script). -/
def seatFmt (n : Nat) : String := pyZfill 6 (Nat.repr n)

/-- `str(int(code_val)).zfill(6)` for a loaded code value (line 55). -/
def normCode (n : Int) : String := pyZfill 6 (toString n)

/-- Configured start bound (line 16). -/
def START_SEAT : Nat := 261370

/-- Configured end bound (line 17). -/
def END_SEAT : Nat := 55602

/-- Configured attempt count of the retry loop (line 19). -/
def RETRIES : Nat := 2

/-- The Seat Enumerator, lines 108-112 without the seen-set filter:
`[str(s).zfill(6) for s in range(start, stop + 1)]`.  Python `range`
counts up with step 1 and is empty when the stop bound does not exceed
the start. -/
def enumerateSeats (start stop : Nat) : List String :=
  (List.range' start (stop + 1 - start)).map seatFmt

/-- Lines 108-112 including the filter `if str(s).zfill(6) not in
seen_codes`. -/
def scheduledSeats (seen : List String) (start stop : Nat) : List String :=
  (enumerateSeats start stop).filter (fun s => decide (s ∉ seen))

/-- The `enumerate(header_row)` search loop, generalized over the
predicate, returning the first index whose cell satisfies it. -/
def findColAux (p : String → Bool) : List String → Nat → Option Nat
  | [], _ => Option.none
  | h :: t, i => if p h then some i else findColAux p t (i + 1)

/-- Line 41: `if h and str(h).strip().lower() == "code"`.  Header cells
are modelled as strings; a `None` header cell behaves like `""` (both are
falsy and neither can equal "code"). -/
def codeHeaderPred (h : String) : Bool :=
  !(decide (h = "")) && decide (pyLower (pyStrip h) = "code")

/-- Lines 39-43: locate the code column. -/
def findCodeCol (header : List String) : Option Nat := findColAux codeHeaderPred header 0

/-- Result of the prior-result load, lines 32-61: the seen-set, the prior
records, and whether the degraded-mode warning of line 45 was printed. -/
structure LoadResult where
  seen : List String
  records : List Record
  warned : Bool
deriving DecidableEq

/-- Python `set.add` modelled on a duplicate-free list: membership is the
only operation the script performs on `seen_codes`. -/
def addSeen (s : List String) (x : String) : List String := if x ∈ s then s else s ++ [x]

/-- Line 59: `dict(zip(header_row, row))`.  `zip` truncates to the
shorter list; duplicate header names keep the last value, as building a
dict from pairs does. -/
def zipRecord (header : List String) (row : List CellValue) : Record :=
  (header.zip row).foldl (fun d p => dictSet d p.fst p.snd) []

/-- Python `row[code_col]` on a loaded data row; the loader only indexes
after its length guard, so the out-of-range case (the absent cell) is
never reached with the guard in place. -/
def cellAt : List CellValue -> Nat -> CellValue
  | [], _ => CellValue.none
  | v :: _, 0 => v
  | _ :: t, n + 1 => cellAt t n

/-- Lines 47-59, one data row: skip short rows, skip a `None` code cell,
skip a code cell `int(...)` rejects, otherwise add the zero-padded code
to the seen-set and retain the zipped row. -/
def loadRow (c : Nat) (header : List String) (st : List String × List Record)
    (row : List CellValue) : List String × List Record :=
  if row.length ≤ c then st
  else
    match cellAt row c with
    | CellValue.none => st
    | v =>
      match pyInt v with
      | Option.none => st
      | some n => (addSeen st.fst (normCode n), st.snd ++ [zipRecord header row])

/-- Lines 32-61: the Prior-Result Loader on an existing spreadsheet,
given its header row and data rows. -/
def loadPrior (header : List String) (rows : List (List CellValue)) : LoadResult :=
  match findCodeCol header with
  | Option.none => ⟨[], [], true⟩
  | some c =>
    let st := rows.foldl (loadRow c header) ([], [])
    ⟨st.fst, st.snd, false⟩

/-- A data row that survives the loader: long enough and with an
integer-parseable code cell. -/
def goodRow (c : Nat) (row : List CellValue) : Bool :=
  decide (c < row.length) && (pyInt (cellAt row c)).isSome

/-- The parsed `student_result` section of a response: the text of the
first `h2` (already stripped, as `get_text(strip=True)` returns it), the
texts of the `span` elements in document order, and the first `table` as
its rows of two-or-n-column `td` texts (`Option.none` when no table
exists). -/
structure Sec where
  h2 : Option String
  spans : List String
  table : Option (List (List String))
deriving DecidableEq

/-- A parsed response: the `section` with `id="student_result"`, if
present. -/
structure Response where
  sec : Option Sec
deriving DecidableEq

/-- Line 83: `lambda t: t and "code" in t.lower()`. -/
def spanPred (t : String) : Bool := !(decide (t = "")) && strIn "code" (pyLower t)

/-- Line 83: the first matching span's text. -/
def findCodeSpan (spans : List String) : Option String := spans.find? spanPred

/-- `re.search(r"(\d+)", text)`: the first maximal run of decimal
digits. -/
def firstDigitRunAux : List Char → Option (List Char)
  | [] => Option.none
  | c :: cs =>
    if c.isDigit then some (c :: cs.takeWhile Char.isDigit) else firstDigitRunAux cs

/-- First digit run of a string, as matched by `re.search(r"(\d+)", s)`. -/
def firstDigitRun (s : String) : Option (List Char) := firstDigitRunAux s.data

/-- Line 82: `int(seat_str)`.  The script only calls this on all-digit
zero-padded seat strings, for which `int` succeeds. -/
def seatInt (s : String) : Nat := ((pyIntOfStr s).getD 0).toNat

/-- Lines 82-87: the code defaults to `int(seat_str)` and is overridden
by the first digit run of a matching code span when both exist. -/
def resolvedCode (seat : String) (s : Sec) : Nat :=
  match findCodeSpan s.spans with
  | some t =>
    match firstDigitRun t with
    | some ds => digitsToNat ds
    | Option.none => seatInt seat
  | Option.none => seatInt seat

/-- Line 96: `cols[0].split("/")[0].strip()`. -/
def subjKey (s : String) : String :=
  pyStrip (String.mk (s.data.takeWhile (fun c => !(decide (c = '/')))))

/-- Lines 93-97: one table row; only two-column rows contribute, via dict
assignment `data[subj] = cols[1]`. -/
def addRow (d : Record) (cols : List String) : Record :=
  match cols with
  | [a, b] => dictSet d (subjKey a) (CellValue.str b)
  | _ => d

/-- Lines 78-98: assemble the record from a found section, or return the
no-result signal when the section has no table. -/
def parseSec (seat : String) (s : Sec) : Option Record :=
  match s.table with
  | Option.none => Option.none
  | some rows =>
    some (rows.foldl addRow
      [("name", CellValue.str (s.h2.getD "")),
       ("code", CellValue.int (Int.ofNat (resolvedCode seat s)))])

/-- Lines 74-98: the non-raising body of one attempt, given the parsed
response: no section means the no-result signal. -/
def parseResponse (seat : String) (r : Response) : Option Record :=
  match r.sec with
  | Option.none => Option.none
  | some s => parseSec seat s

/-- Outcome of one attempt of the `try` block of `fetch_one`: a raised
transport/parse exception with its message, or a parsed response. -/
inductive Outcome where
  | raised (e : String) : Outcome
  | ok (r : Response) : Outcome
deriving DecidableEq

/-- Lines 70-103: the retry loop of `fetch_one`, over the remaining
attempt count and the index of the next attempt.  Returns the record (or
no-result signal) together with the error-log lines written, in order.
The `asyncio.sleep(0.5)` backoff between attempts is real time and is not
modelled. -/
def fetchLoop (seat : String) (att : Nat → Outcome) : Nat → Nat → Option Record × List String
  | 0, _ => (Option.none, [seat ++ " → failed after retries"])
  | rem + 1, i =>
    match att i with
    | Outcome.ok resp => (parseResponse seat resp, [])
    | Outcome.raised e =>
      let rest := fetchLoop seat att rem (i + 1)
      (rest.fst, (seat ++ " → " ++ e) :: rest.snd)

/-- Lines 67-103: `fetch_one`, with `for _ in range(RETRIES)`. -/
def fetch_one (seat : String) (att : Nat → Outcome) : Option Record × List String :=
  fetchLoop seat att RETRIES 0

/-- Lines 106-120: the records collected by `run()` — every non-`None`
worker result, keyed by the worker's own returned record.  Completion
order of `asyncio.as_completed` is nondeterministic; this model fixes
submission order, which the set-level claims do not depend on. -/
def runResults (seats : List String) (att : String → Nat → Outcome) : List Record :=
  seats.filterMap (fun s => (fetch_one s (att s)).fst)

/-- Lines 132-134: the header computation — the set union of all record
keys, with `name` and `code` pinned first and the rest sorted by Python
string comparison. -/
def computeHeaders (all : List Record) : List String :=
  "name" :: "code" :: List.insertionSort (fun a b => keyLe a b = true)
    ((all.flatMap recKeys).dedup.filter
      (fun h => !(decide (h = "name") || decide (h = "code"))))

/-- Lines 127-146: combine `existing + results` and rewrite the
spreadsheet; `Option.none` models the early `exit()` of line 130 with no
file written.  Each written row lists `rec.get(h, "")` per header. -/
def pipelineWrite (existing results : List Record) : Option (List String × List (List CellValue)) :=
  let all := existing ++ results
  if all.isEmpty then Option.none
  else
    let hs := computeHeaders all
    some (hs, all.map (fun r => hs.map (fun h => recGet r h (CellValue.str ""))))

/-- Two successive pipeline runs with the same remote behaviour `fetch`
(one abstract worker outcome per seat), the first starting from no prior
file: the value is the list of records the second run newly fetches.
When the first run writes no file the second run again starts from an
empty seen-set. -/
def secondRunResults (fetch : String → Option Record) (start stop : Nat) : List Record :=
  let r1 := (enumerateSeats start stop).filterMap fetch
  match pipelineWrite [] r1 with
  | Option.none => (scheduledSeats [] start stop).filterMap fetch
  | some g => (scheduledSeats (loadPrior g.fst g.snd).seen start stop).filterMap fetch

/-! Helper lemmas. -/

/-- The Python string order is total. -/
theorem lexLe_total : ∀ a b : List Char, lexLe a b = true ∨ lexLe b a = true
  | [], _ => Or.inl rfl
  | _ :: _, [] => Or.inr rfl
  | a :: as, b :: bs => by
    by_cases h : a.toNat = b.toNat
    · rcases lexLe_total as bs with h1 | h1
      · exact Or.inl (by simp [lexLe, h, h1])
      · exact Or.inr (by simp [lexLe, h.symm, h1])
    · rcases Nat.lt_or_ge a.toNat b.toNat with h2 | h2
      · exact Or.inl (by simp [lexLe, h, h2])
      · have h4 : ¬b.toNat = a.toNat := fun e => h e.symm
        have h3 : b.toNat < a.toNat := lt_of_le_of_ne h2 h4
        exact Or.inr (by simp [lexLe, h4, h3])

/-- The Python string order is transitive. -/
theorem lexLe_trans : ∀ a b c : List Char, lexLe a b = true → lexLe b c = true → lexLe a c = true
  | [], _, _, _, _ => rfl
  | _ :: _, [], _, h, _ => by simp [lexLe] at h
  | _ :: _, _ :: _, [], _, h => by simp [lexLe] at h
  | a :: as, b :: bs, c :: cs, h1, h2 => by
    simp only [lexLe] at h1 h2 ⊢
    by_cases e1 : a.toNat = b.toNat
    · by_cases e2 : b.toNat = c.toNat
      · rw [if_pos e1] at h1
        rw [if_pos e2] at h2
        rw [if_pos (e1.trans e2)]
        exact lexLe_trans as bs cs h1 h2
      · rw [if_neg e2] at h2
        have hbc : b.toNat < c.toNat := of_decide_eq_true h2
        have hac : a.toNat < c.toNat := e1 ▸ hbc
        rw [if_neg (Nat.ne_of_lt hac)]
        exact decide_eq_true hac
    · rw [if_neg e1] at h1
      have hab : a.toNat < b.toNat := of_decide_eq_true h1
      by_cases e2 : b.toNat = c.toNat
      · have hac : a.toNat < c.toNat := e2 ▸ hab
        rw [if_neg (Nat.ne_of_lt hac)]
        exact decide_eq_true hac
      · rw [if_neg e2] at h2
        have hbc : b.toNat < c.toNat := of_decide_eq_true h2
        have hac : a.toNat < c.toNat := Nat.lt_trans hab hbc
        rw [if_neg (Nat.ne_of_lt hac)]
        exact decide_eq_true hac

instance : IsTotal String (fun a b => keyLe a b = true) :=
  ⟨fun a b => lexLe_total a.data b.data⟩

instance : IsTrans String (fun a b => keyLe a b = true) :=
  ⟨fun a b c => lexLe_trans a.data b.data c.data⟩

/-- Decimal digit characters are digits. -/
theorem digitChar_isDigit (m : Nat) (h : m < 10) : (Nat.digitChar m).isDigit = true := by
  interval_cases m <;> decide

/-- A number below `10 ^ k` prints with at most `k` digits. -/
theorem toDigitsCore_len : ∀ (k f n : Nat) (ds : List Char), 0 < k → n < 10 ^ k → n < f →
    (Nat.toDigitsCore 10 f n ds).length ≤ ds.length + k := by
  intro k
  induction k with
  | zero => omega
  | succ k ih =>
    intro f n ds _ hlt hf
    match f with
    | 0 => omega
    | f + 1 =>
      simp only [Nat.toDigitsCore]
      by_cases hz : n / 10 = 0
      · rw [if_pos hz]
        simp only [List.length_cons]
        omega
      · rw [if_neg hz]
        have hn10 : 10 ≤ n := by
          by_contra hc
          push_neg at hc
          interval_cases n <;> simp_all
        have hk : 0 < k := by
          by_contra hc
          push_neg at hc
          interval_cases k
          simp at hlt
          omega
        have h1 : n / 10 < 10 ^ k := by
          rw [Nat.div_lt_iff_lt_mul (by norm_num)]
          calc n < 10 ^ (k + 1) := hlt
          _ = 10 ^ k * 10 := by ring
        have h2 : n / 10 < f := by
          have := Nat.div_lt_self (by omega : 0 < n) (by norm_num : 1 < 10)
          omega
        have := ih f (n / 10) (Nat.digitChar (n % 10) :: ds) hk h1 h2
        simp at this ⊢
        omega

/-- Every character `Nat.toDigitsCore` emits is a decimal digit. -/
theorem toDigitsCore_digits : ∀ (f n : Nat) (ds : List Char), (∀ c ∈ ds, c.isDigit = true) →
    ∀ c ∈ Nat.toDigitsCore 10 f n ds, c.isDigit = true := by
  intro f
  induction f with
  | zero => intro n ds h; simpa [Nat.toDigitsCore] using h
  | succ f ih =>
    intro n ds h
    have hd : ∀ c ∈ Nat.digitChar (n % 10) :: ds, c.isDigit = true := by
      intro c hc
      rcases List.mem_cons.1 hc with rfl | hc
      · exact digitChar_isDigit _ (Nat.mod_lt _ (by norm_num))
      · exact h c hc
    simp only [Nat.toDigitsCore]
    by_cases hz : n / 10 = 0
    · simpa [hz] using hd
    · rw [if_neg hz]
      exact ih (n / 10) _ hd

/-- Decimal representation of a number below a million has at most six
characters. -/
theorem repr_length_le (n : Nat) (h : n < 10 ^ 6) : (Nat.repr n).data.length ≤ 6 := by
  have he : Nat.repr n = (Nat.toDigits 10 n).asString := rfl
  rw [he]
  have h2 := toDigitsCore_len 6 (n + 1) n [] (by norm_num) h (by omega)
  simpa [Nat.toDigits, List.asString] using h2

/-- Every character of a printed natural number is a decimal digit. -/
theorem repr_all_digits (n : Nat) : ∀ c ∈ (Nat.repr n).data, c.isDigit = true := by
  have he : Nat.repr n = (Nat.toDigits 10 n).asString := rfl
  rw [he]
  intro c hc
  exact toDigitsCore_digits (n + 1) n [] (by simp) c
    (by simpa [Nat.toDigits, List.asString] using hc)

/-- Digit characters are not sign characters. -/
theorem digit_not_sign (c : Char) (h : c.isDigit = true) : ¬(c = '-' ∨ c = '+') := by
  rintro (rfl | rfl) <;> exact absurd h (by decide)

/-- Zero filling an unsigned char list pads it to at least width `w`. -/
theorem zfillChars_length (w : Nat) (l : List Char) (h : ∀ c ∈ l, c.isDigit = true) :
    (zfillChars w l).length = max w l.length := by
  match l with
  | [] => simp [zfillChars, padZeros]
  | c :: rest =>
    have hc : ¬(c = '-' ∨ c = '+') := digit_not_sign c (h c (List.mem_cons_self c rest))
    simp only [zfillChars, if_neg hc, padZeros, List.length_append, List.length_replicate]
    omega

/-- A seat string for a seat number below a million has exactly six
characters. -/
theorem seatFmt_length (n : Nat) (h : n ≤ 999999) : (seatFmt n).length = 6 := by
  have hlen : (Nat.repr n).data.length ≤ 6 := repr_length_le n (by norm_num; omega)
  have : (seatFmt n).length = (zfillChars 6 (Nat.repr n).data).length := rfl
  rw [this, zfillChars_length 6 _ (repr_all_digits n)]
  omega

/-- C1 counterexample: at the configured bounds (start 261370 greater
than end 55602) the Seat Enumerator produces the empty sequence, not a
descending sequence of `|end - start| + 1 = 205769` seat strings. -/
theorem seat_enumerator_cx :
    enumerateSeats START_SEAT END_SEAT = []
    ∧ (enumerateSeats START_SEAT END_SEAT).length ≠
        ((END_SEAT : Int) - (START_SEAT : Int)).natAbs + 1 := by
  constructor
  · decide
  · decide

/-- C1 (amended): for start ≤ end with end at most 999999 the Seat
Enumerator produces exactly `end - start + 1` SeatId strings, the i-th
being the zero-padded form of `start + i` and each exactly 6 characters;
when start exceeds end the sequence is empty (Python `range` never
iterates downward). -/
theorem seat_enumerator_spec (start stop : Nat) :
    (start ≤ stop → stop ≤ 999999 →
      (enumerateSeats start stop).length = stop - start + 1
      ∧ (∀ i (hi : i < (enumerateSeats start stop).length),
          (enumerateSeats start stop).get ⟨i, hi⟩ = seatFmt (start + i))
      ∧ (∀ s ∈ enumerateSeats start stop, s.length = 6))
    ∧ (stop < start → enumerateSeats start stop = []) := by
  constructor
  · intro h1 h2
    refine ⟨?_, ?_, ?_⟩
    · simp only [enumerateSeats, List.length_map, List.length_range']
      omega
    · intro i hi
      simp only [enumerateSeats, List.get_eq_getElem, List.getElem_map]
      have hi2 : i < stop + 1 - start := by
        simpa [enumerateSeats] using hi
      simp [List.getElem_range']
    · intro s hs
      simp only [enumerateSeats, List.mem_map] at hs
      obtain ⟨n, hn, rfl⟩ := hs
      apply seatFmt_length
      have := List.mem_range'_1.1 hn
      omega
  · intro h
    have hz : stop + 1 - start = 0 := by omega
    simp [enumerateSeats, hz]

/-- C1 witness: concrete instantiations of the amended enumerator
theorem at ascending and at descending bounds. -/
theorem seat_enumerator_spec_witness :
    ((enumerateSeats 261368 261370).length = 261370 - 261368 + 1
      ∧ (∀ s ∈ enumerateSeats 261368 261370, s.length = 6))
    ∧ enumerateSeats 5 3 = [] := by
  have h := (seat_enumerator_spec 261368 261370).1 (by decide) (by decide)
  exact ⟨⟨h.1, h.2.2⟩, (seat_enumerator_spec 5 3).2 (by decide)⟩

/-- Reading back the key just assigned yields the assigned value. -/
theorem recGet_dictSet_self : ∀ (d : Record) (k : String) (v dflt : CellValue),
    recGet (dictSet d k v) k dflt = v
  | [], k, v, dflt => by simp [dictSet, recGet]
  | p :: t, k, v, dflt => by
    by_cases h : p.fst = k
    · simp [dictSet, h, recGet]
    · simp [dictSet, h, recGet, recGet_dictSet_self t k v dflt]

/-- Assigning one key leaves the other keys unchanged. -/
theorem recGet_dictSet_ne : ∀ (d : Record) (k k2 : String) (v dflt : CellValue), k2 ≠ k →
    recGet (dictSet d k v) k2 dflt = recGet d k2 dflt
  | [], k, k2, v, dflt, h => by
    simp [dictSet, recGet, Ne.symm h]
  | p :: t, k, k2, v, dflt, h => by
    by_cases hp : p.fst = k
    · simp [dictSet, hp, recGet, Ne.symm h]
    · simp only [dictSet, if_neg hp, recGet]
      by_cases hq : p.fst = k2
      · simp [hq]
      · simp [hq, recGet_dictSet_ne t k k2 v dflt h]

/-- Folding table rows whose subject keys all differ from `k` leaves the
`k` field of the record unchanged. -/
theorem foldl_addRow_get_ne : ∀ (rows : List (List String)) (d : Record) (k : String)
    (dflt : CellValue), (∀ a b, [a, b] ∈ rows → subjKey a ≠ k) →
    recGet (rows.foldl addRow d) k dflt = recGet d k dflt
  | [], d, k, dflt, _ => rfl
  | r :: rs, d, k, dflt, h => by
    have hrest : ∀ a b, [a, b] ∈ rs → subjKey a ≠ k := fun a b hm => h a b (List.mem_cons_of_mem r hm)
    rw [List.foldl_cons, foldl_addRow_get_ne rs _ k dflt hrest]
    rcases r with _ | ⟨a, r2⟩
    · rfl
    rcases r2 with _ | ⟨b, r3⟩
    · rfl
    rcases r3 with _ | ⟨c, r4⟩
    · exact recGet_dictSet_ne _ _ _ _ _ (Ne.symm (h a b (List.mem_cons_self _ _)))
    · rfl

/-- C10 (confirmed): a two-column results-table row whose first-column
text before the first slash trims to `name` or `code` silently overwrites
the record's display name or resolved code with that row's second-column
grade string. -/
theorem subject_row_overwrites_fields (seat : String) (h2 : Option String)
    (spans : List String) (pre1 pre2 : List (List String)) (k1 v1 k2 v2 : String)
    (dflt : CellValue) (hk1 : subjKey k1 = "name") (hk2 : subjKey k2 = "code") :
    (parseSec seat ⟨h2, spans, some (pre1 ++ [[k1, v1]])⟩).map
        (fun r => recGet r "name" dflt) = some (CellValue.str v1)
    ∧ (parseSec seat ⟨h2, spans, some (pre2 ++ [[k2, v2]])⟩).map
        (fun r => recGet r "code" dflt) = some (CellValue.str v2) := by
  constructor
  · simp only [parseSec, Option.map_some', Option.some.injEq]
    rw [List.foldl_append]
    simp only [List.foldl_cons, List.foldl_nil, addRow, hk1]
    exact recGet_dictSet_self _ _ _ _
  · simp only [parseSec, Option.map_some', Option.some.injEq]
    rw [List.foldl_append]
    simp only [List.foldl_cons, List.foldl_nil, addRow, hk2]
    exact recGet_dictSet_self _ _ _ _

/-- C10 witness: a row labelled ` name ` and a row labelled `code/x`
overwrite the name and code fields with the grade strings. -/
theorem subject_row_overwrites_fields_witness :
    (parseSec "000042" ⟨some "N", [], some ([["Math", "90"]] ++ [[" name ", "HACK"]])⟩).map
        (fun r => recGet r "name" CellValue.none) = some (CellValue.str "HACK")
    ∧ (parseSec "000042" ⟨some "N", [], some ([["Math", "90"]] ++ [["code/x", "99"]])⟩).map
        (fun r => recGet r "code" CellValue.none) = some (CellValue.str "99") :=
  subject_row_overwrites_fields "000042" (some "N") [] [["Math", "90"]] [["Math", "90"]]
    " name " "HACK" "code/x" "99" CellValue.none (by decide) (by decide)

/-- C3 counterexample: for requested seat `000042` a response asserts
code 777 in its code span, but a results-table row labelled `code / x`
overwrites the field, so the record carries the grade string `95` —
neither the requested nor the remote-asserted code. -/
theorem remote_code_cx :
    (parseResponse "000042"
        ⟨some ⟨some "X", ["Code: 000777"], some [["code / x", "95"]]⟩⟩).map
      (fun r => recGet r "code" CellValue.none) = some (CellValue.str "95")
    ∧ resolvedCode "000042" ⟨some "X", ["Code: 000777"], some [["code / x", "95"]]⟩ = 777
    ∧ CellValue.str "95" ≠ CellValue.int 777 ∧ CellValue.str "95" ≠ CellValue.int 42 := by
  refine ⟨by decide, by decide, by decide, by decide⟩

/-- C3 (amended): the code defaults to the integer value of the
requested seat and is overridden by the first numeric substring of a
labelled code span; provided no two-column results-table row has subject
key `code`, the fetched record carries that resolved code and enters the
collected dataset under it. -/
theorem remote_code_resolution (seat : String) (s : Sec) (rows : List (List String))
    (ht : s.table = some rows)
    (hnc : ∀ a b, [a, b] ∈ rows → subjKey a ≠ "code")
    (seats : List String) (att : String → Nat → Outcome)
    (hseat : seat ∈ seats) (h0 : att seat 0 = Outcome.ok ⟨some s⟩) :
    ((fetch_one seat (att seat)).fst.map (fun r => recGet r "code" CellValue.none)
      = some (CellValue.int (Int.ofNat (resolvedCode seat s))))
    ∧ (∀ r, (fetch_one seat (att seat)).fst = some r → r ∈ runResults seats att)
    ∧ (findCodeSpan s.spans = Option.none → resolvedCode seat s = seatInt seat)
    ∧ (∀ t ds, findCodeSpan s.spans = some t → firstDigitRun t = some ds →
        resolvedCode seat s = digitsToNat ds) := by
  have hone : fetch_one seat (att seat) = (parseSec seat s, []) := by
    simp [fetch_one, RETRIES, fetchLoop, h0, parseResponse]
  refine ⟨?_, ?_, ?_, ?_⟩
  · rw [hone]
    simp only [parseSec, ht, Option.map_some', Option.some.injEq]
    rw [foldl_addRow_get_ne rows _ "code" CellValue.none hnc]
    simp [recGet]
  · intro r hr
    exact List.mem_filterMap.2 ⟨seat, hseat, hr⟩
  · intro hs
    simp [resolvedCode, hs]
  · intro t ds hsp hds
    simp [resolvedCode, hsp, hds]

/-- C3 witness: a span asserting code 777 for requested seat `000042`
with an ordinary subjects table; the record's code field is 777 and the
record is in the collected dataset. -/
theorem remote_code_resolution_witness :
    ((fetch_one "000042"
        ((fun _ _ => Outcome.ok ⟨some ⟨some "N", ["code 000777"], some [["Math", "90"]]⟩⟩)
          "000042")).fst.map (fun r => recGet r "code" CellValue.none)
      = some (CellValue.int 777))
    ∧ resolvedCode "000042" ⟨some "N", ["code 000777"], some [["Math", "90"]]⟩ = 777 := by
  have h := remote_code_resolution "000042"
    ⟨some "N", ["code 000777"], some [["Math", "90"]]⟩ [["Math", "90"]] rfl
    (by intro a b hm; simp at hm; rcases hm with ⟨rfl, rfl⟩; decide)
    ["000042"] (fun _ _ => Outcome.ok ⟨some ⟨some "N", ["code 000777"], some [["Math", "90"]]⟩⟩)
    (by simp) rfl
  have hres : resolvedCode "000042" ⟨some "N", ["code 000777"], some [["Math", "90"]]⟩ = 777 := by
    decide
  refine ⟨?_, hres⟩
  have h1 := h.1
  rw [hres] at h1
  exact h1

/-- C9 (confirmed): a response with no result section, or with a section
but no table, makes the worker return the no-result signal at once: no
log entry, no further attempt consulted (the attempt function beyond
index 0 is arbitrary), unlike the transport-failure path. -/
theorem missing_section_no_result (seat : String) (att : Nat → Outcome) (resp : Response)
    (h0 : att 0 = Outcome.ok resp)
    (hempty : resp.sec = Option.none ∨ ∃ s, resp.sec = some s ∧ s.table = Option.none) :
    fetch_one seat att = (Option.none, []) := by
  have hone : fetch_one seat att = (parseResponse seat resp, []) := by
    simp [fetch_one, RETRIES, fetchLoop, h0]
  rw [hone]
  rcases hempty with h | ⟨s, hs, htab⟩
  · simp [parseResponse, h]
  · simp [parseResponse, hs, parseSec, htab]

/-- C9 witness: a sectionless response and a tableless section both
return the no-result signal with an empty log, whatever later attempts
would have produced. -/
theorem missing_section_no_result_witness :
    fetch_one "000042" (fun _ => Outcome.ok ⟨Option.none⟩) = (Option.none, [])
    ∧ fetch_one "000042"
        (fun _ => Outcome.ok ⟨some ⟨some "N", ["code 7"], Option.none⟩⟩) = (Option.none, []) := by
  constructor
  · exact missing_section_no_result "000042" _ ⟨Option.none⟩ rfl (Or.inl rfl)
  · exact missing_section_no_result "000042" _ ⟨some ⟨some "N", ["code 7"], Option.none⟩⟩ rfl
      (Or.inr ⟨_, rfl, rfl⟩)

/-- A seat whose worker yields no record contributes nothing: filtering
it out of the scheduled list leaves the collected records unchanged. -/
theorem filterMap_skip (f : String → Option Record) (x : String) (hx : f x = Option.none) :
    ∀ l : List String, l.filterMap f = (l.filter (fun a => decide (a ≠ x))).filterMap f := by
  intro l
  induction l with
  | nil => rfl
  | cons a l ih =>
    by_cases h : a = x
    · subst h
      simp [List.filterMap_cons, hx, List.filter_cons, ih]
    · cases hfa : f a <;>
        simp [List.filterMap_cons, List.filter_cons, h, hfa, ih]

/-- C4 (confirmed): when every attempt for a seat raises, the worker
makes exactly the configured number of attempts, logs each error and a
final failed-after-retries line, returns the no-result signal instead of
raising, and the seat contributes nothing to the collected dataset (the
run, being a total function, completes).  The fixed half-second backoff
between attempts is real time and is outside the model. -/
theorem transport_failure_degrades (seat : String) (seats : List String)
    (att : String → Nat → Outcome) (es : Nat → String)
    (hfail : ∀ i, i < RETRIES → att seat i = Outcome.raised (es i)) :
    fetch_one seat (att seat) =
      (Option.none, [seat ++ " → " ++ es 0, seat ++ " → " ++ es 1,
        seat ++ " → failed after retries"])
    ∧ runResults seats att =
        runResults (seats.filter (fun a => decide (a ≠ seat))) att := by
  have k0 := hfail 0 (by decide)
  have k1 := hfail 1 (by decide)
  have hone : fetch_one seat (att seat) =
      (Option.none, [seat ++ " → " ++ es 0, seat ++ " → " ++ es 1,
        seat ++ " → failed after retries"]) := by
    simp [fetch_one, RETRIES, fetchLoop, k0, k1]
  refine ⟨hone, ?_⟩
  exact filterMap_skip _ seat (by rw [hone]) seats

/-- C4 witness: a worker raising `boom` on both attempts for seat
`000042`: two error-log lines plus the final one, the no-result signal,
and an unchanged dataset when the seat is dropped from the schedule. -/
theorem transport_failure_degrades_witness :
    fetch_one "000042" ((fun _ _ => Outcome.raised "boom") "000042")
      = (Option.none, ["000042 → boom", "000042 → boom", "000042 → failed after retries"])
    ∧ runResults ["000042", "000007"] (fun _ _ => Outcome.raised "boom")
      = runResults (["000042", "000007"].filter (fun a => decide (a ≠ "000042")))
          (fun _ _ => Outcome.raised "boom") :=
  transport_failure_degrades "000042" ["000042", "000007"]
    (fun _ _ => Outcome.raised "boom") (fun _ => "boom") (fun _ _ => rfl)

/-- Membership in the seen-set after one `add`. -/
theorem mem_addSeen (s : List String) (x y : String) : x ∈ addSeen s y ↔ x ∈ s ∨ x = y := by
  unfold addSeen
  by_cases h : y ∈ s
  · rw [if_pos h]
    constructor
    · exact Or.inl
    · rintro (hx | rfl)
      · exact hx
      · exact h
  · rw [if_neg h]
    simp [List.mem_append]

/-- The load step, restated with the guards flattened. -/
theorem loadRow_eq (c : Nat) (header : List String) (st : List String × List Record)
    (row : List CellValue) :
    loadRow c header st row =
      if row.length ≤ c then st
      else
        match pyInt (cellAt row c) with
        | Option.none => st
        | some n => (addSeen st.fst (normCode n), st.snd ++ [zipRecord header row]) := by
  unfold loadRow
  by_cases hlen : row.length ≤ c
  · rw [if_pos hlen, if_pos hlen]
  · rw [if_neg hlen, if_neg hlen]
    cases cellAt row c <;> rfl

/-- A row that fails the guards leaves the loader state unchanged. -/
theorem loadRow_bad (c : Nat) (header : List String) (st : List String × List Record)
    (row : List CellValue) (hbad : goodRow c row = false) : loadRow c header st row = st := by
  rw [loadRow_eq]
  by_cases hlen : row.length ≤ c
  · rw [if_pos hlen]
  · rw [if_neg hlen]
    have hnone : pyInt (cellAt row c) = Option.none := by
      cases ho : pyInt (cellAt row c) with
      | none => rfl
      | some m =>
        exfalso
        have hgt : goodRow c row = true := by
          simp only [goodRow, ho, Option.isSome_some, Bool.and_true, decide_eq_true_eq]
          omega
        rw [hbad] at hgt
        exact Bool.false_ne_true hgt
    rw [hnone]

/-- A surviving row adds its normalized code to the seen-set and appends
the zipped record. -/
theorem loadRow_good (c : Nat) (header : List String) (st : List String × List Record)
    (row : List CellValue) (n : Int) (hlen : c < row.length)
    (hn : pyInt (cellAt row c) = some n) :
    loadRow c header st row = (addSeen st.fst (normCode n), st.snd ++ [zipRecord header row]) := by
  rw [loadRow_eq, if_neg (by omega), hn]

/-- The records the load loop accumulates are exactly the surviving rows
zipped against the header, in order. -/
theorem loadFold_records (c : Nat) (header : List String) :
    ∀ (rows : List (List CellValue)) (st : List String × List Record),
    (rows.foldl (loadRow c header) st).snd
      = st.snd ++ (rows.filter (goodRow c)).map (zipRecord header)
  | [], st => by simp
  | row :: rows, st => by
    rw [List.foldl_cons, loadFold_records c header rows _]
    by_cases hg : goodRow c row = true
    · have hlen : c < row.length := by
        simp only [goodRow, Bool.and_eq_true, decide_eq_true_eq] at hg
        exact hg.1
      obtain ⟨n, hn⟩ : ∃ n, pyInt (cellAt row c) = some n := by
        simp only [goodRow, Bool.and_eq_true, Option.isSome_iff_exists] at hg
        exact hg.2
      rw [loadRow_good c header st row n hlen hn]
      simp [List.filter_cons, hg]
    · rw [loadRow_bad c header st row (by simpa using hg)]
      simp [List.filter_cons, hg]

/-- Membership in the seen-set the load loop accumulates: the initial
members plus the normalized code of every surviving row. -/
theorem loadFold_seen (c : Nat) (header : List String) :
    ∀ (rows : List (List CellValue)) (st : List String × List Record) (x : String),
    x ∈ (rows.foldl (loadRow c header) st).fst ↔
      x ∈ st.fst ∨ ∃ row ∈ rows, ∃ n, c < row.length ∧
        pyInt (cellAt row c) = some n ∧ x = normCode n
  | [], st, x => by simp
  | row :: rows, st, x => by
    rw [List.foldl_cons]
    by_cases hg : goodRow c row = true
    · have hlen : c < row.length := by
        simp only [goodRow, Bool.and_eq_true, decide_eq_true_eq] at hg
        exact hg.1
      obtain ⟨n, hn⟩ : ∃ n, pyInt (cellAt row c) = some n := by
        simp only [goodRow, Bool.and_eq_true, Option.isSome_iff_exists] at hg
        exact hg.2
      rw [loadRow_good c header st row n hlen hn,
        loadFold_seen c header rows _ x]
      simp only [mem_addSeen, List.mem_cons, exists_eq_or_imp]
      constructor
      · rintro (⟨hx | rfl⟩ | hrest)
        · exact Or.inl hx
        · exact Or.inr (Or.inl ⟨n, hlen, hn, rfl⟩)
        · exact Or.inr (Or.inr hrest)
      · rintro (hx | ⟨m, hlen2, hm, rfl⟩ | hrest)
        · exact Or.inl (Or.inl hx)
        · rw [hn] at hm
          cases hm
          exact Or.inl (Or.inr rfl)
        · exact Or.inr hrest
    · have hno : ¬ ∃ n, c < row.length ∧ pyInt (cellAt row c) = some n
          ∧ x = normCode n := by
        rintro ⟨n, hlen, hn, _⟩
        simp [goodRow, hlen, hn] at hg
      rw [loadRow_bad c header st row (by simpa using hg),
        loadFold_seen c header rows st x]
      simp only [List.mem_cons, exists_eq_or_imp]
      constructor
      · rintro (hx | hrest)
        · exact Or.inl hx
        · exact Or.inr (Or.inr hrest)
      · rintro (hx | hbadrow | hrest)
        · exact Or.inl hx
        · exact absurd hbadrow hno
        · exact Or.inr hrest

/-- C7 (confirmed): with the code column found at index c, the loader
keeps exactly the rows that are long enough and whose code cell parses as
an integer — each zipped against the header row as a prior record — and
the seen-set holds exactly the zero-padded normalized codes of those
rows; short rows and unparseable rows are dropped from both. -/
theorem prior_row_handling (header : List String) (rows : List (List CellValue)) (c : Nat)
    (hc : findCodeCol header = some c) :
    (loadPrior header rows).records = (rows.filter (goodRow c)).map (zipRecord header)
    ∧ (∀ x, x ∈ (loadPrior header rows).seen ↔
        ∃ row ∈ rows, ∃ n, c < row.length ∧
          pyInt (cellAt row c) = some n ∧ x = normCode n)
    ∧ (loadPrior header rows).warned = false := by
  simp only [loadPrior, hc]
  refine ⟨?_, ?_, trivial⟩
  · simpa using loadFold_records c header rows ([], [])
  · intro x
    simpa using loadFold_seen c header rows ([], []) x

/-- C7 witness: a row with an unparseable code (`ABC`), a short row and a
good row (code 7): only the good row survives, as the zipped record and
as seen entry `000007`. -/
theorem prior_row_handling_witness :
    ((loadPrior ["name", "code"]
        [[CellValue.str "A", CellValue.str "ABC"], [CellValue.str "B"],
          [CellValue.str "C", CellValue.int 7]]).records
      = ([[CellValue.str "A", CellValue.str "ABC"], [CellValue.str "B"],
          [CellValue.str "C", CellValue.int 7]].filter (goodRow 1)).map
          (zipRecord ["name", "code"]))
    ∧ (loadPrior ["name", "code"]
        [[CellValue.str "A", CellValue.str "ABC"], [CellValue.str "B"],
          [CellValue.str "C", CellValue.int 7]]).records
      = [[("name", CellValue.str "C"), ("code", CellValue.int 7)]]
    ∧ ("000007" ∈ (loadPrior ["name", "code"]
        [[CellValue.str "A", CellValue.str "ABC"], [CellValue.str "B"],
          [CellValue.str "C", CellValue.int 7]]).seen)
    ∧ (loadPrior ["name", "code"]
        [[CellValue.str "A", CellValue.str "ABC"], [CellValue.str "B"],
          [CellValue.str "C", CellValue.int 7]]).warned = false := by
  have h := prior_row_handling ["name", "code"]
    [[CellValue.str "A", CellValue.str "ABC"], [CellValue.str "B"],
      [CellValue.str "C", CellValue.int 7]] 1 (by decide)
  refine ⟨h.1, by decide, ?_, h.2.2⟩
  refine (h.2.1 "000007").2 ⟨[CellValue.str "C", CellValue.int 7], ?_, 7, ?_, ?_, ?_⟩
  · decide
  · decide
  · decide
  · decide

/-- When no header cell satisfies the predicate the column search fails
from any starting index. -/
theorem findColAux_none (p : String → Bool) : ∀ (l : List String), (∀ a ∈ l, p a = false) →
    ∀ i, findColAux p l i = Option.none
  | [], _, _ => rfl
  | a :: l, h, i => by
    unfold findColAux
    rw [h a (List.mem_cons_self _ _)]
    simp only [Bool.false_eq_true, if_false]
    exact findColAux_none p l (fun b hb => h b (List.mem_cons_of_mem a hb)) (i + 1)

/-- C8 (confirmed): when no header cell trims and lowercases to `code`,
the loader warns and degrades to an empty seen-set and zero prior
records; the load is a total function, so nothing is raised. -/
theorem missing_code_column (header : List String) (rows : List (List CellValue))
    (hnc : ∀ cell ∈ header, pyLower (pyStrip cell) ≠ "code") :
    loadPrior header rows = ⟨[], [], true⟩ := by
  have hfind : findCodeCol header = Option.none := by
    unfold findCodeCol
    refine findColAux_none _ header ?_ 0
    intro a ha
    simp [codeHeaderPred, hnc a ha]
  simp [loadPrior, hfind]

/-- C8 witness: a file whose headers are `name`, `c0de` and ` Code! `
yields the warning, an empty seen-set and no prior records. -/
theorem missing_code_column_witness :
    loadPrior ["name", "c0de", " Code! "] [[CellValue.int 5, CellValue.str "x"]]
      = ⟨[], [], true⟩ :=
  missing_code_column ["name", "c0de", " Code! "] [[CellValue.int 5, CellValue.str "x"]]
    (by decide)

/-- C5 (confirmed): the writer concatenates existing records first and
new records after, with no deduplication; an empty combination yields no
file (the script reports and exits); otherwise the full grid is
rewritten with one row per record in concatenation order, every missing
field filled with the empty string. -/
theorem writer_combines (existing results : List Record) :
    (existing ++ results = [] → pipelineWrite existing results = Option.none)
    ∧ (existing ++ results ≠ [] →
        pipelineWrite existing results
            = some (computeHeaders (existing ++ results),
                (existing ++ results).map (fun r =>
                  (computeHeaders (existing ++ results)).map
                    (fun hd => recGet r hd (CellValue.str ""))))
          ∧ ((existing ++ results).map (fun r =>
                (computeHeaders (existing ++ results)).map
                  (fun hd => recGet r hd (CellValue.str "")))).length
              = existing.length + results.length) := by
  constructor
  · intro h
    simp [pipelineWrite, h]
  · intro h
    constructor
    · simp only [pipelineWrite]
      rw [if_neg (by simpa [List.isEmpty_iff] using h)]
    · simp

/-- C5 witness: the empty combination writes nothing; a record present
both as existing and as new is written twice (no deduplication), in
concatenation order. -/
theorem writer_combines_witness :
    pipelineWrite [] [] = Option.none
    ∧ pipelineWrite [[("name", CellValue.str "A"), ("code", CellValue.int 1)]]
        [[("name", CellValue.str "A"), ("code", CellValue.int 1)]]
      = some (["name", "code"],
          [[CellValue.str "A", CellValue.int 1], [CellValue.str "A", CellValue.int 1]]) := by
  refine ⟨(writer_combines [] []).1 rfl, ?_⟩
  have h := (writer_combines [[("name", CellValue.str "A"), ("code", CellValue.int 1)]]
    [[("name", CellValue.str "A"), ("code", CellValue.int 1)]]).2 (by decide)
  rw [h.1]
  decide

/-- C6 (confirmed): for a non-empty combined dataset the written header
row starts with `name`, `code`, followed by the remaining union of all
record field names, duplicate-free and sorted by Python string
comparison. -/
theorem header_union_sorted (all : List Record) (_hne : all ≠ []) :
    (computeHeaders all).take 2 = ["name", "code"]
    ∧ List.Sorted (fun a b => keyLe a b = true) ((computeHeaders all).drop 2)
    ∧ ((computeHeaders all).drop 2).Nodup
    ∧ (∀ h, h ∈ (computeHeaders all).drop 2 ↔
        ((∃ r ∈ all, h ∈ recKeys r) ∧ h ≠ "name" ∧ h ≠ "code")) := by
  refine ⟨rfl, ?_, ?_, ?_⟩
  · exact List.sorted_insertionSort _ _
  · refine ((List.perm_insertionSort _ _).nodup_iff).2 ?_
    exact (List.nodup_dedup _).filter _
  · intro h
    rw [show (computeHeaders all).drop 2
        = List.insertionSort (fun a b => keyLe a b = true)
            ((all.flatMap recKeys).dedup.filter
              (fun x => !(decide (x = "name") || decide (x = "code")))) from rfl]
    rw [List.mem_insertionSort, List.mem_filter, List.mem_dedup, List.mem_flatMap]
    simp

/-- C6 witness: prior record (A, 1, Math 90) and new record
(B, 2, Science 85): headers are exactly name, code, Math, Science, and
the first data row fills Science with the empty string. -/
theorem header_union_sorted_witness :
    computeHeaders
        [[("name", CellValue.str "A"), ("code", CellValue.int 1), ("Math", CellValue.str "90")],
          [("name", CellValue.str "B"), ("code", CellValue.int 2), ("Science", CellValue.str "85")]]
      = ["name", "code", "Math", "Science"]
    ∧ pipelineWrite
        [[("name", CellValue.str "A"), ("code", CellValue.int 1), ("Math", CellValue.str "90")]]
        [[("name", CellValue.str "B"), ("code", CellValue.int 2), ("Science", CellValue.str "85")]]
      = some (["name", "code", "Math", "Science"],
          [[CellValue.str "A", CellValue.int 1, CellValue.str "90", CellValue.str ""],
            [CellValue.str "B", CellValue.int 2, CellValue.str "", CellValue.str "85"]])
    ∧ List.Sorted (fun a b => keyLe a b = true)
        ((computeHeaders
          [[("name", CellValue.str "A"), ("code", CellValue.int 1), ("Math", CellValue.str "90")],
            [("name", CellValue.str "B"), ("code", CellValue.int 2), ("Science", CellValue.str "85")]]).drop 2) := by
  refine ⟨by decide, by decide, ?_⟩
  exact (header_union_sorted
    [[("name", CellValue.str "A"), ("code", CellValue.int 1), ("Math", CellValue.str "90")],
      [("name", CellValue.str "B"), ("code", CellValue.int 2), ("Science", CellValue.str "85")]]
    (by decide)).2.1

/-- In any header row the writer produces, the code column search stops
at index 1. -/
theorem findCodeCol_computeHeaders (all : List Record) :
    findCodeCol (computeHeaders all) = some 1 := by
  have h1 : codeHeaderPred "name" = false := by decide
  have h2 : codeHeaderPred "code" = true := by decide
  show findColAux codeHeaderPred ("name" :: "code" :: _) 0 = some 1
  rw [findColAux, h1]
  rw [if_neg (by simp)]
  rw [findColAux, h2]
  rw [if_pos rfl]

/-- Loading a grid the writer produced recovers as seen-set exactly the
normalized integer values of the records' code fields. -/
theorem written_seen_mem (existing results : List Record) (hs : List String)
    (rows : List (List CellValue))
    (hw : pipelineWrite existing results = some (hs, rows)) (x : String) :
    x ∈ (loadPrior hs rows).seen ↔
      ∃ r ∈ existing ++ results, ∃ n,
        pyInt (recGet r "code" (CellValue.str "")) = some n ∧ x = normCode n := by
  have hne : ¬(existing ++ results).isEmpty = true := by
    intro h
    rw [pipelineWrite] at hw
    rw [if_pos h] at hw
    cases hw
  rw [pipelineWrite] at hw
  rw [if_neg hne] at hw
  simp only [Option.some.injEq, Prod.mk.injEq] at hw
  obtain ⟨hhs, hrows⟩ := hw
  subst hhs
  subst hrows
  have hcc := findCodeCol_computeHeaders (existing ++ results)
  simp only [loadPrior, hcc]
  rw [loadFold_seen 1 _ _ ([], []) x]
  constructor
  · rintro (hfalse | ⟨row, hrow, n, hlen, hcell, rfl⟩)
    · simp at hfalse
    · obtain ⟨r, hr, rfl⟩ := List.mem_map.1 hrow
      refine ⟨r, hr, n, ?_, rfl⟩
      simpa [computeHeaders, cellAt] using hcell
  · rintro ⟨r, hr, n, hcell, rfl⟩
    refine Or.inr ⟨(computeHeaders (existing ++ results)).map
        (fun hd => recGet r hd (CellValue.str "")), List.mem_map_of_mem _ hr, n, ?_, ?_, rfl⟩
    · simp [computeHeaders]
    · simpa [computeHeaders, cellAt] using hcell

/-- C2 counterexample: remote data that answers seat `000001` with a
record asserting code 2.  The first run records it under `000002`, the
seen-set of the second run does not contain `000001`, the seat is
re-scheduled, and the second run fetches one new (duplicate) record
instead of zero. -/
theorem resume_roundtrip_cx :
    secondRunResults
        (fun s => if s = "000001"
          then some [("name", CellValue.str "B"), ("code", CellValue.int 2)]
          else Option.none) 1 1
      = [[("name", CellValue.str "B"), ("code", CellValue.int 2)]]
    ∧ [[("name", CellValue.str "B"), ("code", CellValue.int 2)]] ≠ ([] : List Record) := by
  constructor
  · decide
  · decide

/-- C2 (amended): (a) writing any ResultSet and loading the grid back
recovers as seen-set exactly the 6-digit normalizations of the records'
integer-parseable code values; (b) when every fetched record's code
normalizes back to the seat that was requested, a second run over the
same range with unchanged remote data fetches zero new records. -/
theorem resume_roundtrip :
    (∀ (existing results : List Record) (hs : List String)
      (rows : List (List CellValue)) (x : String),
      pipelineWrite existing results = some (hs, rows) →
      (x ∈ (loadPrior hs rows).seen ↔
        ∃ r ∈ existing ++ results, ∃ n,
          pyInt (recGet r "code" (CellValue.str "")) = some n ∧ x = normCode n))
    ∧ (∀ (fetch : String → Option Record) (start stop : Nat),
        (∀ s r, fetch s = some r → ∃ n,
          pyInt (recGet r "code" (CellValue.str "")) = some n ∧ normCode n = s) →
        secondRunResults fetch start stop = []) := by
  constructor
  · intro existing results hs rows x hw
    exact written_seen_mem existing results hs rows hw x
  · intro fetch start stop hfid
    have hgoal : secondRunResults fetch start stop
        = match pipelineWrite [] ((enumerateSeats start stop).filterMap fetch) with
          | Option.none => (scheduledSeats [] start stop).filterMap fetch
          | some g => (scheduledSeats (loadPrior g.fst g.snd).seen start stop).filterMap fetch :=
      rfl
    rw [hgoal]
    cases hw : pipelineWrite [] ((enumerateSeats start stop).filterMap fetch) with
    | none =>
      have hnil : (enumerateSeats start stop).filterMap fetch = [] := by
        by_contra hne
        rw [pipelineWrite] at hw
        rw [if_neg (by simpa [List.isEmpty_iff] using hne)] at hw
        cases hw
      rw [List.filterMap_eq_nil_iff] at hnil
      rw [List.filterMap_eq_nil_iff]
      intro a ha
      refine hnil a ?_
      rw [scheduledSeats, List.mem_filter] at ha
      exact ha.1
    | some g =>
      obtain ⟨hs, rows⟩ := g
      rw [List.filterMap_eq_nil_iff]
      intro s hsch
      rw [scheduledSeats, List.mem_filter] at hsch
      obtain ⟨hsenum, hsnot⟩ := hsch
      cases hf : fetch s with
      | none => rfl
      | some r =>
        exfalso
        have hmem : r ∈ (enumerateSeats start stop).filterMap fetch :=
          List.mem_filterMap.2 ⟨s, hsenum, hf⟩
        obtain ⟨n, hn, hns⟩ := hfid s r hf
        have hseen : s ∈ (loadPrior hs rows).seen :=
          (written_seen_mem [] _ hs rows hw s).2 ⟨r, by simpa using hmem, n, hn, hns.symm⟩
        simp only [decide_eq_true_eq] at hsnot
        exact hsnot hseen

/-- C2 witness: part (a) at a written grid holding code 2 (seen entry
`000002`); part (b) at remote data answering seat `000001` with a record
whose code is 1: the second run fetches nothing new. -/
theorem resume_roundtrip_witness :
    ("000002" ∈ (loadPrior ["name", "code"] [[CellValue.str "B", CellValue.int 2]]).seen)
    ∧ secondRunResults (fun s => if s = "000001"
        then some [("name", CellValue.str "A"), ("code", CellValue.int 1)]
        else Option.none) 1 1 = [] := by
  constructor
  · refine (resume_roundtrip.1 [] [[("name", CellValue.str "B"), ("code", CellValue.int 2)]]
      ["name", "code"] [[CellValue.str "B", CellValue.int 2]] "000002" (by decide)).2 ?_
    exact ⟨[("name", CellValue.str "B"), ("code", CellValue.int 2)], by decide, 2,
      by decide, by decide⟩
  · refine resume_roundtrip.2 (fun s => if s = "000001"
        then some [("name", CellValue.str "A"), ("code", CellValue.int 1)]
        else Option.none) 1 1 ?_
    intro s r hf
    by_cases hs : s = "000001"
    · subst hs
      simp only [if_pos] at hf
      cases hf
      exact ⟨1, by decide, by decide⟩
    · simp [hs] at hf
